import Mathlib

/-!
Verification of the log-search bot (`src/app.py`) against its specification.

The embedding models the program's state explicitly:
* the `users` table (`user_id PK, expires`) as a partial map `Nat → Option Time`;
* the `searches` table (`user_id, keyword, line, found_at`, composite primary
  key on the first three columns) as a list of rows in insertion order;
* the in-memory `_user_cooldowns` dict as a total map `Nat → Time` with
  default `0` (mirroring `_user_cooldowns.get(user_id, 0)`);
* the in-memory `LOGS` list as a `List String`;
* wall-clock time as `ℚ` (Python's `time.time()` / `datetime.now()`).

A log file on disk is modelled as `Option (List String)`: `none` is an
unreadable file, `some raws` a readable file whose iterator yields the raw
lines `raws` (each normally ending in a newline character).
-/

namespace LogsBot

abbrev Time := ℚ

/-- A row of the `searches` table (`init_db`, src/app.py lines 265-272). -/
structure SearchRow where
  user : Nat
  keyword : String
  line : String
  found_at : Time
deriving DecidableEq, Repr

/-- Python `s.lower()` (character-wise lowering). -/
def pyLower (s : String) : String := String.mk (s.toList.map Char.toLower)

/-- Python `s.strip()` (drop leading and trailing whitespace). -/
def pyStrip (s : String) : String :=
  String.mk (((s.toList.dropWhile Char.isWhitespace).reverse.dropWhile
    Char.isWhitespace).reverse)

/-- Bool test that `needle` is a leading segment of `hay`. -/
def leadsWith : List Char → List Char → Bool
  | [], _ => true
  | _ :: _, [] => false
  | a :: as, b :: bs => a == b && leadsWith as bs

/-- Bool test that `needle` occurs contiguously somewhere in the list. -/
def hasSeg (needle : List Char) : List Char → Bool
  | [] => needle.isEmpty
  | c :: cs => leadsWith needle (c :: cs) || hasSeg needle cs

/-- Python `needle in haystack` on strings (substring containment). -/
def pyIn (needle haystack : String) : Bool := hasSeg needle.toList haystack.toList

/-- Python `line.rstrip` of the newline character: drop every trailing `'\n'`. -/
def rstripNl (s : String) : String :=
  String.mk ((s.toList.reverse.dropWhile (fun c => c == '\n')).reverse)

/-- Embedding of `reload_logs` (src/app.py lines 279-292): keep the raw lines
whose `strip()` is non-empty, in order, each with trailing newlines removed.
A missing file is created empty (`some []`); an unreadable file (`none`, the
exception path) yields the empty corpus. The previous in-memory value is
discarded wholesale: the result depends only on the file. -/
def reload_logs (file : Option (List String)) : List String :=
  match file with
  | none => []
  | some raws => (raws.filter (fun l => !(pyStrip l).isEmpty)).map rstripNl

/-- The dedup lookup `SELECT 1 FROM searches WHERE user_id=.. AND keyword=..
AND line=..` (src/app.py line 657). -/
def is_delivered (searches : List SearchRow) (uid : Nat) (kw line : String) : Bool :=
  searches.any (fun r => r.user == uid && r.keyword == kw && r.line == line)

/-- The check-then-insert unit of src/app.py lines 657-660: insert the row for
the composite key `(uid, kw, line)` unless a row with that key already exists. -/
def record_delivered (searches : List SearchRow) (uid : Nat) (kw line : String)
    (t : Time) : List SearchRow :=
  if is_delivered searches uid kw line then searches
  else searches ++ [⟨uid, kw, line, t⟩]

/-- The scan loop of `process_search` (src/app.py lines 651-660): walk the
corpus, breaking as soon as the accumulated batch reaches `maxLines`;
a matching line that is not yet delivered is appended to the batch and
inserted into the `searches` table. -/
def searchScan (maxLines : Nat) (uid : Nat) (kw : String) (t : Time) :
    List String → List String → List SearchRow → List String × List SearchRow
  | [], found, searches => (found, searches)
  | line :: rest, found, searches =>
    if maxLines ≤ found.length then (found, searches)
    else if pyIn kw (pyLower line) then
      if is_delivered searches uid kw line then
        searchScan maxLines uid kw t rest found searches
      else
        searchScan maxLines uid kw t rest (found ++ [line]) (searches ++ [⟨uid, kw, line, t⟩])
    else
      searchScan maxLines uid kw t rest found searches

/-- Number of lines of the corpus an uncapped scan would accept: the count of
distinct matching contents not yet delivered. -/
def newMatchCount (uid : Nat) (kw : String) (t : Time) :
    List SearchRow → List String → Nat
  | _, [] => 0
  | searches, line :: rest =>
    if pyIn kw (pyLower line) && !(is_delivered searches uid kw line) then
      1 + newMatchCount uid kw t (searches ++ [⟨uid, kw, line, t⟩]) rest
    else
      newMatchCount uid kw t searches rest

/-- Embedding of `check_cooldown` (src/app.py lines 325-331). -/
def check_cooldown (cooldownSeconds : ℤ) (cooldowns : Nat → Time) (uid : Nat)
    (now : Time) : Bool × ℤ :=
  let last := cooldowns uid
  let remaining : ℚ := (cooldownSeconds : ℚ) - (now - last)
  if 0 < remaining then (false, ⌈remaining⌉) else (true, 0)

/-- Embedding of `user_has_access` (src/app.py lines 333-343): returns the
boolean outcome together with the (possibly evicted) `users` table. -/
def user_has_access (users : Nat → Option Time) (uid : Nat) (now : Time) :
    Bool × (Nat → Option Time) :=
  match users uid with
  | none => (false, users)
  | some expires =>
    if now ≤ expires then (true, users)
    else (false, fun u => if u = uid then none else users u)

/-- Embedding of `get_user_expiry` (src/app.py lines 345-347). -/
def get_user_expiry (users : Nat → Option Time) (uid : Nat) : Option Time :=
  users uid

/-- The mutable state `process_search` touches. -/
structure BotState where
  users : Nat → Option Time
  searches : List SearchRow
  cooldowns : Nat → Time
  logs : List String

/-- Outcome of one `process_search` call, following §4.5 of the spec. -/
inductive SearchOutcome where
  | cooldownDenied (remaining : ℤ)
  | noAccess
  | emptyKeyword
  | noNewResults
  | found (lines : List String)
deriving DecidableEq, Repr

/-- Embedding of `process_search` (src/app.py lines 625-672): cooldown check,
access check, corpus reload, keyword normalisation, dedup scan; the cooldown
timestamp is written only on a non-empty batch. One `now : Time` stands for
the wall clock during the call. -/
def process_search (maxLines : Nat) (cooldownSeconds : ℤ) (st : BotState)
    (uid : Nat) (text : String) (file : Option (List String)) (now : Time) :
    SearchOutcome × BotState :=
  let ck := check_cooldown cooldownSeconds st.cooldowns uid now
  if ck.1 then
    let acc := user_has_access st.users uid now
    if acc.1 then
      let logs := reload_logs file
      let keywordRaw := pyStrip text
      if keywordRaw.isEmpty then
        (SearchOutcome.emptyKeyword, { st with users := acc.2, logs := logs })
      else
        let keyword := pyLower keywordRaw
        let res := searchScan maxLines uid keyword now logs [] st.searches
        if res.1.isEmpty then
          (SearchOutcome.noNewResults,
           { st with users := acc.2, searches := res.2, logs := logs })
        else
          (SearchOutcome.found res.1,
           { st with users := acc.2, searches := res.2, logs := logs,
                     cooldowns := fun u => if u = uid then now else st.cooldowns u })
    else
      (SearchOutcome.noAccess, { st with users := acc.2 })
  else
    (SearchOutcome.cooldownDenied ck.2, st)

/-- A row of the `keys` table (`init_db`, src/app.py lines 254-259). -/
structure KeyRow where
  key : String
  expires : Time
  redeemed_by : Option Nat
deriving DecidableEq, Repr

/-- Modelled from the spec: the `/redeem` command handler itself is absent from
src/app.py (the file only references `/redeem` from other handlers and stores
`redeemed_by` in the `keys` table). Per spec §4.2, redemption atomically
selects the key only if `redeemed_by` is null; on success it sets
`redeemed_by = user` and upserts the user's Access Record to the key's
`expires_at`; otherwise it fails with `InvalidOrUsedKey`, here `none`. -/
def redeem (keys : List KeyRow) (users : Nat → Option Time) (token : String)
    (uid : Nat) : Option Time × List KeyRow × (Nat → Option Time) :=
  match keys.find? (fun k => k.key == token && k.redeemed_by == none) with
  | none => (none, keys, users)
  | some k =>
    (some k.expires,
     keys.map (fun r => if r.key == token then { r with redeemed_by := some uid } else r),
     fun u => if u = uid then some k.expires else users u)

/-- A serialised schedule of redemption attempts on one token: spec §4.2/§5
require each redemption to be a single transactional unit, so N concurrent
attempts execute as some serial order of N atomic `redeem` calls. Returns the
outcome of each attempt in order. -/
def redeemAll (token : String) :
    List Nat → List KeyRow → (Nat → Option Time) → List (Option Time)
  | [], _, _ => []
  | u :: us, keys, users =>
    let r := redeem keys users token u
    r.1 :: redeemAll token us r.2.1 r.2.2

/-- Rows of the `searches` table for one user and keyword: the WHERE clause of
the export queries (src/app.py lines 181 and 497). -/
def exportRows (searches : List SearchRow) (uid : Nat) (kw : String) :
    List SearchRow :=
  searches.filter (fun r => r.user == uid && r.keyword == kw)

/-- The comparison `ORDER BY found_at ASC` sorts by. -/
def rowLe (a b : SearchRow) : Prop := a.found_at ≤ b.found_at

instance (a b : SearchRow) : Decidable (rowLe a b) := by
  unfold rowLe
  infer_instance

/-- The set of outputs the query `SELECT line FROM searches WHERE user_id=%s
AND keyword=%s ORDER BY found_at ASC LIMIT %s` (src/app.py lines 181 and 497)
may return: SQL fixes only that the filtered rows come in some order that is
non-decreasing in `found_at`, truncated to the limit; the relative order of
rows with equal `found_at` is unspecified. -/
def exportResultOK (maxLines : Nat) (searches : List SearchRow) (uid : Nat)
    (kw : String) (out : List String) : Prop :=
  ∃ perm : List SearchRow, perm.Perm (exportRows searches uid kw) ∧
    perm.Pairwise rowLe ∧ out = (perm.take maxLines).map SearchRow.line

/-- Removal of a single trailing newline, following the spec's words "trimming
only trailing newline" (§6, Corpus source); used to compare `reload_logs`
against the spec's description of the load. -/
def dropOneNl (s : String) : String :=
  if s.toList.getLast? = some '\n' then String.mk s.toList.dropLast else s

/-- The corpus load as the spec words it (§6): "read all non-blank lines
preserving order, trimming only trailing newline". -/
def specCorpusLoad (ls : List String) : List String :=
  (ls.filter (fun l => !(pyStrip l).isEmpty)).map dropOneNl

/-! ### Basic facts about the access and cooldown checks -/

theorem check_cooldown_allowed {cool : ℤ} {cooldowns : Nat → Time} {uid : Nat} {now : Time}
    (h : (cool : ℚ) - (now - cooldowns uid) ≤ 0) :
    check_cooldown cool cooldowns uid now = (true, 0) := by
  unfold check_cooldown
  rw [if_neg (not_lt.mpr h)]

theorem check_cooldown_denied {cool : ℤ} {cooldowns : Nat → Time} {uid : Nat} {now : Time}
    (h : 0 < (cool : ℚ) - (now - cooldowns uid)) :
    check_cooldown cool cooldowns uid now = (false, ⌈(cool : ℚ) - (now - cooldowns uid)⌉) := by
  unfold check_cooldown
  rw [if_pos h]

theorem user_has_access_none {users : Nat → Option Time} {uid : Nat} {now : Time}
    (hu : users uid = none) :
    user_has_access users uid now = (false, users) := by
  unfold user_has_access
  rw [hu]

theorem user_has_access_of_valid {users : Nat → Option Time} {uid : Nat} {now e : Time}
    (hu : users uid = some e) (he : now ≤ e) :
    user_has_access users uid now = (true, users) := by
  unfold user_has_access
  rw [hu]
  show (if now ≤ e then (true, users)
        else (false, fun u => if u = uid then none else users u)) = (true, users)
  rw [if_pos he]

theorem user_has_access_expired {users : Nat → Option Time} {uid : Nat} {now e : Time}
    (hu : users uid = some e) (he : ¬ now ≤ e) :
    user_has_access users uid now =
      (false, fun u => if u = uid then none else users u) := by
  unfold user_has_access
  rw [hu]
  show (if now ≤ e then (true, users)
        else (false, fun u => if u = uid then none else users u)) =
    (false, fun u => if u = uid then none else users u)
  rw [if_neg he]

theorem user_has_access_true_users {users : Nat → Option Time} {uid : Nat} {now : Time}
    (h : (user_has_access users uid now).1 = true) :
    (user_has_access users uid now).2 = users := by
  cases hu : users uid with
  | none => rw [user_has_access_none hu] at h; exact absurd h (by simp)
  | some e =>
    by_cases he : now ≤ e
    · rw [user_has_access_of_valid hu he]
    · rw [user_has_access_expired hu he] at h; exact absurd h (by simp)

/-! ### Structure of the dedup scan -/

theorem is_delivered_append {s d : List SearchRow} {uid : Nat} {kw line : String}
    (h : is_delivered s uid kw line = true) :
    is_delivered (s ++ d) uid kw line = true := by
  unfold is_delivered at *
  rw [List.any_append, h, Bool.true_or]

theorem is_delivered_append_false {s d : List SearchRow} {uid : Nat} {kw line : String}
    (h : is_delivered (s ++ d) uid kw line = false) :
    is_delivered s uid kw line = false := by
  cases hs : is_delivered s uid kw line with
  | false => rfl
  | true => rw [is_delivered_append hs] at h; exact h.symm ▸ rfl

theorem is_delivered_append_right {s d : List SearchRow} {uid : Nat} {kw line : String}
    (h : is_delivered d uid kw line = true) :
    is_delivered (s ++ d) uid kw line = true := by
  unfold is_delivered at *
  rw [List.any_append, h, Bool.or_true]

theorem is_delivered_self {s : List SearchRow} {uid : Nat} {kw line : String} {t : Time} :
    is_delivered (s ++ [⟨uid, kw, line, t⟩]) uid kw line = true := by
  unfold is_delivered
  rw [List.any_append]
  simp

theorem is_delivered_map_row {d : List String} {uid : Nat} {kw line : String} {t : Time}
    (h : line ∈ d) :
    is_delivered (d.map (fun l => (⟨uid, kw, l, t⟩ : SearchRow))) uid kw line = true := by
  unfold is_delivered
  simp only [List.any_eq_true]
  exact ⟨⟨uid, kw, line, t⟩, List.mem_map_of_mem _ h, by simp⟩

theorem searchScan_stop {M : Nat} {uid : Nat} {kw : String} {t : Time}
    {c f : List String} {s : List SearchRow} (h : M ≤ f.length) :
    searchScan M uid kw t c f s = (f, s) := by
  cases c with
  | nil => simp [searchScan]
  | cons l rest => simp [searchScan, h]

theorem searchScan_struct (M : Nat) (uid : Nat) (kw : String) (t : Time) :
    ∀ (c f : List String) (s : List SearchRow),
      ∃ d : List String,
        searchScan M uid kw t c f s =
          (f ++ d, s ++ d.map (fun l => ⟨uid, kw, l, t⟩)) := by
  intro c
  induction c with
  | nil => intro f s; exact ⟨[], by simp [searchScan]⟩
  | cons line rest ih =>
    intro f s
    by_cases hM : M ≤ f.length
    · exact ⟨[], by simp [searchScan, hM]⟩
    · by_cases hm : pyIn kw (pyLower line) = true
      · by_cases hd : is_delivered s uid kw line = true
        · obtain ⟨d, hdd⟩ := ih f s
          exact ⟨d, by simp [searchScan, hM, hm, hd, hdd]⟩
        · obtain ⟨d, hdd⟩ := ih (f ++ [line]) (s ++ [⟨uid, kw, line, t⟩])
          refine ⟨line :: d, ?_⟩
          simp only [searchScan, if_neg hM, hm, if_true,
            Bool.not_eq_true _ ▸ hd, Bool.false_eq_true, if_false, hdd]
          simp
      · obtain ⟨d, hdd⟩ := ih f s
        refine ⟨d, ?_⟩
        simp only [Bool.not_eq_true] at hm
        simp [searchScan, hM, hm, hdd]

theorem searchScan_append (M : Nat) (uid : Nat) (kw : String) (t : Time) :
    ∀ (a b f : List String) (s : List SearchRow),
      searchScan M uid kw t (a ++ b) f s =
        searchScan M uid kw t b (searchScan M uid kw t a f s).1
          (searchScan M uid kw t a f s).2 := by
  intro a
  induction a with
  | nil => intro b f s; simp [searchScan]
  | cons line rest ih =>
    intro b f s
    by_cases hM : M ≤ f.length
    · simp [searchScan_stop hM, List.cons_append, searchScan, hM]
    · by_cases hm : pyIn kw (pyLower line) = true
      · by_cases hd : is_delivered s uid kw line = true
        · simp [List.cons_append, searchScan, hM, hm, hd, ih]
        · simp only [Bool.not_eq_true] at hd
          simp [List.cons_append, searchScan, hM, hm, hd, ih]
      · simp only [Bool.not_eq_true] at hm
        simp [List.cons_append, searchScan, hM, hm, ih]

/-! ### Counting lemmas for the capped scan -/

theorem searchScan_len (M : Nat) (uid : Nat) (kw : String) (t : Time) :
    ∀ (c f : List String) (s : List SearchRow), f.length ≤ M →
      (searchScan M uid kw t c f s).1.length =
        min M (f.length + newMatchCount uid kw t s c) := by
  intro c
  induction c with
  | nil => intro f s h; simp [searchScan, newMatchCount, Nat.min_eq_right h]
  | cons line rest ih =>
    intro f s h
    by_cases hM : M ≤ f.length
    · have hf : f.length = M := le_antisymm h hM
      rw [searchScan_stop hM, hf, Nat.min_eq_left (Nat.le_add_right _ _)]
    · by_cases hm : pyIn kw (pyLower line) = true
      · by_cases hd : is_delivered s uid kw line = true
        · have hscan : searchScan M uid kw t (line :: rest) f s =
              searchScan M uid kw t rest f s := by
            simp [searchScan, hM, hm, hd]
          have h1 : newMatchCount uid kw t s (line :: rest) =
              newMatchCount uid kw t s rest := by
            simp [newMatchCount, hd]
          rw [hscan, h1]; exact ih f s h
        · simp only [Bool.not_eq_true] at hd
          have hscan : searchScan M uid kw t (line :: rest) f s =
              searchScan M uid kw t rest (f ++ [line]) (s ++ [⟨uid, kw, line, t⟩]) := by
            simp [searchScan, hM, hm, hd]
          have h1 : newMatchCount uid kw t s (line :: rest) =
              1 + newMatchCount uid kw t (s ++ [⟨uid, kw, line, t⟩]) rest := by
            simp [newMatchCount, hm, hd]
          have h2 := ih (f ++ [line]) (s ++ [⟨uid, kw, line, t⟩])
            (by simpa using Nat.lt_of_not_le hM)
          rw [hscan, h1, h2]
          simp only [List.length_append, List.length_cons, List.length_nil]
          omega
      · simp only [Bool.not_eq_true] at hm
        have hscan : searchScan M uid kw t (line :: rest) f s =
            searchScan M uid kw t rest f s := by
          simp [searchScan, hM, hm]
        have h1 : newMatchCount uid kw t s (line :: rest) =
            newMatchCount uid kw t s rest := by
          simp [newMatchCount, hm]
        rw [hscan, h1]; exact ih f s h

theorem searchScan_cnt (M : Nat) (uid : Nat) (kw : String) (t : Time) :
    ∀ (c f : List String) (s : List SearchRow),
      newMatchCount uid kw t s c + f.length =
        (searchScan M uid kw t c f s).1.length +
          newMatchCount uid kw t (searchScan M uid kw t c f s).2 c := by
  intro c
  induction c with
  | nil => intro f s; simp [searchScan, newMatchCount]
  | cons line rest ih =>
    intro f s
    by_cases hM : M ≤ f.length
    · rw [searchScan_stop hM]; exact Nat.add_comm _ _
    · by_cases hm : pyIn kw (pyLower line) = true
      · by_cases hd : is_delivered s uid kw line = true
        · have hscan : searchScan M uid kw t (line :: rest) f s =
              searchScan M uid kw t rest f s := by
            simp [searchScan, hM, hm, hd]
          have hdel2 : is_delivered (searchScan M uid kw t rest f s).2 uid kw line = true := by
            obtain ⟨d, hdd⟩ := searchScan_struct M uid kw t rest f s
            rw [hdd]; exact is_delivered_append hd
          have h1 : newMatchCount uid kw t s (line :: rest) =
              newMatchCount uid kw t s rest := by
            simp [newMatchCount, hd]
          have h2 : newMatchCount uid kw t (searchScan M uid kw t rest f s).2 (line :: rest) =
              newMatchCount uid kw t (searchScan M uid kw t rest f s).2 rest := by
            simp [newMatchCount, hdel2]
          rw [hscan, h1, h2]; exact ih f s
        · simp only [Bool.not_eq_true] at hd
          have hscan : searchScan M uid kw t (line :: rest) f s =
              searchScan M uid kw t rest (f ++ [line]) (s ++ [⟨uid, kw, line, t⟩]) := by
            simp [searchScan, hM, hm, hd]
          have hdel2 : is_delivered
              (searchScan M uid kw t rest (f ++ [line]) (s ++ [⟨uid, kw, line, t⟩])).2
              uid kw line = true := by
            obtain ⟨d, hdd⟩ :=
              searchScan_struct M uid kw t rest (f ++ [line]) (s ++ [⟨uid, kw, line, t⟩])
            rw [hdd, List.append_assoc]
            exact is_delivered_append is_delivered_self
          have h1 : newMatchCount uid kw t s (line :: rest) =
              1 + newMatchCount uid kw t (s ++ [⟨uid, kw, line, t⟩]) rest := by
            simp [newMatchCount, hm, hd]
          have h2 : newMatchCount uid kw t
                (searchScan M uid kw t rest (f ++ [line]) (s ++ [⟨uid, kw, line, t⟩])).2
                (line :: rest) =
              newMatchCount uid kw t
                (searchScan M uid kw t rest (f ++ [line]) (s ++ [⟨uid, kw, line, t⟩])).2
                rest := by
            simp [newMatchCount, hdel2]
          rw [hscan, h1, h2]
          have h3 := ih (f ++ [line]) (s ++ [⟨uid, kw, line, t⟩])
          simp only [List.length_append, List.length_cons, List.length_nil] at h3 ⊢
          omega
      · simp only [Bool.not_eq_true] at hm
        have hscan : searchScan M uid kw t (line :: rest) f s =
            searchScan M uid kw t rest f s := by
          simp [searchScan, hM, hm]
        have h1 : ∀ S : List SearchRow, newMatchCount uid kw t S (line :: rest) =
            newMatchCount uid kw t S rest := by
          intro S; simp [newMatchCount, hm]
        rw [hscan, h1, h1]; exact ih f s

/-! ### Dedup invariants of the scan -/

/-- The part of a `searches` row the dedup lookup reads. -/
def rowKey (r : SearchRow) : Nat × String × String := (r.user, r.keyword, r.line)

theorem is_delivered_of_keys (uid : Nat) (kw line : String) {s₁ s₂ : List SearchRow}
    (h : s₁.map rowKey = s₂.map rowKey) :
    is_delivered s₁ uid kw line = is_delivered s₂ uid kw line := by
  unfold is_delivered
  have e : ∀ s : List SearchRow,
      (s.any fun r => r.user == uid && r.keyword == kw && r.line == line) =
        ((s.map rowKey).any fun k => k.1 == uid && k.2.1 == kw && k.2.2 == line) := by
    intro s
    induction s with
    | nil => rfl
    | cons r rs ih => simp only [List.map_cons, List.any_cons, ih, rowKey]
  rw [e, e, h]

theorem newMatchCount_keys (uid : Nat) (kw : String) :
    ∀ (c : List String) (s₁ s₂ : List SearchRow) (t₁ t₂ : Time),
      s₁.map rowKey = s₂.map rowKey →
      newMatchCount uid kw t₁ s₁ c = newMatchCount uid kw t₂ s₂ c := by
  intro c
  induction c with
  | nil => intro s₁ s₂ t₁ t₂ _; simp [newMatchCount]
  | cons line rest ih =>
    intro s₁ s₂ t₁ t₂ h
    have hdel := is_delivered_of_keys uid kw line h
    have hkeys : (s₁ ++ [(⟨uid, kw, line, t₁⟩ : SearchRow)]).map rowKey =
        (s₂ ++ [(⟨uid, kw, line, t₂⟩ : SearchRow)]).map rowKey := by
      rw [List.map_append, List.map_append, h]
      rfl
    simp only [newMatchCount, hdel]
    by_cases hc : (pyIn kw (pyLower line) && !is_delivered s₂ uid kw line) = true
    · rw [if_pos hc, if_pos hc, ih _ _ t₁ t₂ hkeys]
    · rw [if_neg hc, if_neg hc, ih _ _ t₁ t₂ h]

theorem newMatchCount_zero (uid : Nat) (kw : String) (t : Time) :
    ∀ (c : List String) (s : List SearchRow), newMatchCount uid kw t s c = 0 →
      ∀ x ∈ c, pyIn kw (pyLower x) = true → is_delivered s uid kw x = true := by
  intro c
  induction c with
  | nil => intro s _ x hx; exact absurd hx (List.not_mem_nil x)
  | cons line rest ih =>
    intro s h0 x hx hm
    by_cases hc : (pyIn kw (pyLower line) && !is_delivered s uid kw line) = true
    · rw [newMatchCount, if_pos hc] at h0; omega
    · rw [newMatchCount, if_neg hc] at h0
      rcases List.mem_cons.mp hx with rfl | hx'
      · simp only [Bool.and_eq_true, Bool.not_eq_true', not_and, hm,
          forall_const, true_and] at hc
        simpa using hc
      · exact ih s h0 x hx' hm

theorem searchScan_mem (M : Nat) (uid : Nat) (kw : String) (t : Time) :
    ∀ (c f : List String) (s : List SearchRow) (x : String),
      x ∈ (searchScan M uid kw t c f s).1 →
      x ∈ f ∨ (x ∈ c ∧ pyIn kw (pyLower x) = true ∧ is_delivered s uid kw x = false) := by
  intro c
  induction c with
  | nil => intro f s x hx; left; simpa [searchScan] using hx
  | cons line rest ih =>
    intro f s x hx
    by_cases hM : M ≤ f.length
    · rw [searchScan_stop hM] at hx; exact Or.inl hx
    · by_cases hm : pyIn kw (pyLower line) = true
      · by_cases hd : is_delivered s uid kw line = true
        · have hscan : searchScan M uid kw t (line :: rest) f s =
              searchScan M uid kw t rest f s := by
            simp [searchScan, hM, hm, hd]
          rw [hscan] at hx
          rcases ih f s x hx with h | ⟨h1, h2, h3⟩
          · exact Or.inl h
          · exact Or.inr ⟨List.mem_cons_of_mem _ h1, h2, h3⟩
        · simp only [Bool.not_eq_true] at hd
          have hscan : searchScan M uid kw t (line :: rest) f s =
              searchScan M uid kw t rest (f ++ [line]) (s ++ [⟨uid, kw, line, t⟩]) := by
            simp [searchScan, hM, hm, hd]
          rw [hscan] at hx
          rcases ih _ _ x hx with h | ⟨h1, h2, h3⟩
          · rcases List.mem_append.mp h with h' | h'
            · exact Or.inl h'
            · have : x = line := by simpa using h'
              subst this
              exact Or.inr ⟨List.mem_cons_self _ _, hm, hd⟩
          · exact Or.inr ⟨List.mem_cons_of_mem _ h1, h2, is_delivered_append_false h3⟩
      · simp only [Bool.not_eq_true] at hm
        have hscan : searchScan M uid kw t (line :: rest) f s =
            searchScan M uid kw t rest f s := by
          simp [searchScan, hM, hm]
        rw [hscan] at hx
        rcases ih f s x hx with h | ⟨h1, h2, h3⟩
        · exact Or.inl h
        · exact Or.inr ⟨List.mem_cons_of_mem _ h1, h2, h3⟩

theorem searchScan_complete (M : Nat) (uid : Nat) (kw : String) (t : Time) :
    ∀ (c f : List String) (s : List SearchRow),
      f.length + newMatchCount uid kw t s c ≤ M →
      ∀ x ∈ c, pyIn kw (pyLower x) = true →
        is_delivered (searchScan M uid kw t c f s).2 uid kw x = true := by
  intro c
  induction c with
  | nil => intro f s _ x hx; exact absurd hx (List.not_mem_nil x)
  | cons line rest ih =>
    intro f s hle x hx hm
    by_cases hM : M ≤ f.length
    · rw [searchScan_stop hM]
      exact newMatchCount_zero uid kw t (line :: rest) s (by omega) x hx hm
    · by_cases hml : pyIn kw (pyLower line) = true
      · by_cases hd : is_delivered s uid kw line = true
        · have hscan : searchScan M uid kw t (line :: rest) f s =
              searchScan M uid kw t rest f s := by
            simp [searchScan, hM, hml, hd]
          have h1 : newMatchCount uid kw t s (line :: rest) =
              newMatchCount uid kw t s rest := by
            simp [newMatchCount, hd]
          rw [hscan]
          rcases List.mem_cons.mp hx with rfl | hx'
          · obtain ⟨d, hdd⟩ := searchScan_struct M uid kw t rest f s
            rw [hdd]; exact is_delivered_append hd
          · exact ih f s (h1 ▸ hle) x hx' hm
        · simp only [Bool.not_eq_true] at hd
          have hscan : searchScan M uid kw t (line :: rest) f s =
              searchScan M uid kw t rest (f ++ [line]) (s ++ [⟨uid, kw, line, t⟩]) := by
            simp [searchScan, hM, hml, hd]
          have h1 : newMatchCount uid kw t s (line :: rest) =
              1 + newMatchCount uid kw t (s ++ [⟨uid, kw, line, t⟩]) rest := by
            simp [newMatchCount, hml, hd]
          rw [hscan]
          rcases List.mem_cons.mp hx with rfl | hx'
          · obtain ⟨d, hdd⟩ :=
              searchScan_struct M uid kw t rest (f ++ [x]) (s ++ [⟨uid, kw, x, t⟩])
            rw [hdd, List.append_assoc]
            exact is_delivered_append is_delivered_self
          · refine ih (f ++ [line]) (s ++ [⟨uid, kw, line, t⟩]) ?_ x hx' hm
            rw [h1] at hle
            simp only [List.length_append, List.length_cons, List.length_nil]
            omega
      · simp only [Bool.not_eq_true] at hml
        have hscan : searchScan M uid kw t (line :: rest) f s =
            searchScan M uid kw t rest f s := by
          simp [searchScan, hM, hml]
        have h1 : newMatchCount uid kw t s (line :: rest) =
            newMatchCount uid kw t s rest := by
          simp [newMatchCount, hml]
        rw [hscan]
        rcases List.mem_cons.mp hx with rfl | hx'
        · rw [hml] at hm; exact absurd hm (by simp)
        · exact ih f s (h1 ▸ hle) x hx' hm

theorem is_delivered_cases {s : List SearchRow} {d : List String} {uid : Nat}
    {kw x : String} {t : Time}
    (h : is_delivered (s ++ d.map (fun l => (⟨uid, kw, l, t⟩ : SearchRow))) uid kw x = true) :
    is_delivered s uid kw x = true ∨ x ∈ d := by
  unfold is_delivered at h
  rw [List.any_append] at h
  rcases Bool.or_eq_true_iff.mp h with h1 | h2
  · exact Or.inl h1
  · right
    rw [List.any_eq_true] at h2
    obtain ⟨r, hr, hpred⟩ := h2
    obtain ⟨l, hl, rfl⟩ := List.mem_map.mp hr
    have : l = x := by simpa using hpred
    exact this ▸ hl

theorem searchScan_mem_rev (M : Nat) (uid : Nat) (kw : String) (t : Time)
    {c f : List String} {s : List SearchRow} {x : String}
    (hle : f.length + newMatchCount uid kw t s c ≤ M)
    (hx : x ∈ c) (hm : pyIn kw (pyLower x) = true)
    (hnew : is_delivered s uid kw x = false) :
    x ∈ (searchScan M uid kw t c f s).1 := by
  have hfin := searchScan_complete M uid kw t c f s hle x hx hm
  obtain ⟨d, hdd⟩ := searchScan_struct M uid kw t c f s
  rw [hdd] at hfin
  simp only at hfin
  rcases is_delivered_cases hfin with h1 | h2
  · rw [hnew] at h1; cases h1
  · rw [hdd]
    simp only
    exact List.mem_append.mpr (Or.inr h2)

theorem searchScan_nodup (M : Nat) (uid : Nat) (kw : String) (t : Time) :
    ∀ (c f : List String) (s : List SearchRow),
      (∀ y ∈ f, is_delivered s uid kw y = true) → f.Nodup →
      (searchScan M uid kw t c f s).1.Nodup := by
  intro c
  induction c with
  | nil => intro f s _ hf; simpa [searchScan] using hf
  | cons line rest ih =>
    intro f s hinv hf
    by_cases hM : M ≤ f.length
    · rw [searchScan_stop hM]; exact hf
    · by_cases hm : pyIn kw (pyLower line) = true
      · by_cases hd : is_delivered s uid kw line = true
        · have hscan : searchScan M uid kw t (line :: rest) f s =
              searchScan M uid kw t rest f s := by
            simp [searchScan, hM, hm, hd]
          rw [hscan]; exact ih f s hinv hf
        · simp only [Bool.not_eq_true] at hd
          have hscan : searchScan M uid kw t (line :: rest) f s =
              searchScan M uid kw t rest (f ++ [line]) (s ++ [⟨uid, kw, line, t⟩]) := by
            simp [searchScan, hM, hm, hd]
          rw [hscan]
          refine ih _ _ ?_ ?_
          · intro y hy
            rcases List.mem_append.mp hy with hy' | hy'
            · exact is_delivered_append (hinv y hy')
            · have he : y = line := by simpa using hy'
              rw [he]; exact is_delivered_self
          · have hnot : line ∉ f := by
              intro hmem
              have := hinv line hmem
              rw [hd] at this
              cases this
            refine List.Nodup.append hf (List.nodup_singleton _) ?_
            intro a ha hb
            have : a = line := by simpa using hb
            exact hnot (this ▸ ha)
      · simp only [Bool.not_eq_true] at hm
        have hscan : searchScan M uid kw t (line :: rest) f s =
            searchScan M uid kw t rest f s := by
          simp [searchScan, hM, hm]
        rw [hscan]; exact ih f s hinv hf

theorem searchScan_all_delivered (M : Nat) (uid : Nat) (kw : String) (t : Time) :
    ∀ (c : List String) (s : List SearchRow),
      (∀ x ∈ c, pyIn kw (pyLower x) = true → is_delivered s uid kw x = true) →
      searchScan M uid kw t c [] s = ([], s) := by
  intro c
  induction c with
  | nil => intro s _; simp [searchScan]
  | cons line rest ih =>
    intro s hall
    by_cases hM : M ≤ ([] : List String).length
    · exact searchScan_stop hM
    · have hM0 : ¬ (M = 0) := by simpa using hM
      by_cases hm : pyIn kw (pyLower line) = true
      · have hd : is_delivered s uid kw line = true :=
          hall line (List.mem_cons_self _ _) hm
        have hscan : searchScan M uid kw t (line :: rest) [] s =
            searchScan M uid kw t rest [] s := by
          simp [searchScan, hM, hM0, hm, hd]
        rw [hscan]; exact ih s (fun x hx => hall x (List.mem_cons_of_mem _ hx))
      · simp only [Bool.not_eq_true] at hm
        have hscan : searchScan M uid kw t (line :: rest) [] s =
            searchScan M uid kw t rest [] s := by
          simp [searchScan, hM, hM0, hm]
        rw [hscan]; exact ih s (fun x hx => hall x (List.mem_cons_of_mem _ hx))

theorem process_search_denied {M : Nat} {cool : ℤ} {st : BotState} {uid : Nat}
    {text : String} {file : Option (List String)} {now : Time}
    (h : (check_cooldown cool st.cooldowns uid now).1 = false) :
    process_search M cool st uid text file now =
      (SearchOutcome.cooldownDenied (check_cooldown cool st.cooldowns uid now).2, st) := by
  unfold process_search
  simp [h]

theorem process_search_noaccess {M : Nat} {cool : ℤ} {st : BotState} {uid : Nat}
    {text : String} {file : Option (List String)} {now : Time}
    (hck : (check_cooldown cool st.cooldowns uid now).1 = true)
    (hacc : (user_has_access st.users uid now).1 = false) :
    process_search M cool st uid text file now =
      (SearchOutcome.noAccess, { st with users := (user_has_access st.users uid now).2 }) := by
  unfold process_search
  simp [hck, hacc]

theorem process_search_emptyKeyword {M : Nat} {cool : ℤ} {st : BotState} {uid : Nat}
    {text : String} {file : Option (List String)} {now : Time}
    (hck : (check_cooldown cool st.cooldowns uid now).1 = true)
    (hacc : (user_has_access st.users uid now).1 = true)
    (hkw : (pyStrip text).isEmpty = true) :
    process_search M cool st uid text file now =
      (SearchOutcome.emptyKeyword, { st with logs := reload_logs file }) := by
  unfold process_search
  simp [hck, hacc, hkw, user_has_access_true_users hacc]

theorem process_search_noNew {M : Nat} {cool : ℤ} {st : BotState} {uid : Nat}
    {text : String} {file : Option (List String)} {now : Time}
    (hck : (check_cooldown cool st.cooldowns uid now).1 = true)
    (hacc : (user_has_access st.users uid now).1 = true)
    (hkw : (pyStrip text).isEmpty = false)
    (hres : (searchScan M uid (pyLower (pyStrip text)) now (reload_logs file) [] st.searches).1 = []) :
    process_search M cool st uid text file now =
      (SearchOutcome.noNewResults,
       { st with
           searches := (searchScan M uid (pyLower (pyStrip text)) now (reload_logs file) [] st.searches).2,
           logs := reload_logs file }) := by
  unfold process_search
  simp [hck, hacc, hkw, hres, user_has_access_true_users hacc]

theorem process_search_foundEq {M : Nat} {cool : ℤ} {st : BotState} {uid : Nat}
    {text : String} {file : Option (List String)} {now : Time}
    (hck : (check_cooldown cool st.cooldowns uid now).1 = true)
    (hacc : (user_has_access st.users uid now).1 = true)
    (hkw : (pyStrip text).isEmpty = false)
    (hres : (searchScan M uid (pyLower (pyStrip text)) now (reload_logs file) [] st.searches).1 ≠ []) :
    process_search M cool st uid text file now =
      (SearchOutcome.found
         (searchScan M uid (pyLower (pyStrip text)) now (reload_logs file) [] st.searches).1,
       { st with
           searches := (searchScan M uid (pyLower (pyStrip text)) now (reload_logs file) [] st.searches).2,
           logs := reload_logs file,
           cooldowns := fun u => if u = uid then now else st.cooldowns u }) := by
  unfold process_search
  simp [hck, hacc, hkw, List.isEmpty_iff, hres, user_has_access_true_users hacc]

/-! ### Shape of the outcome and of the cooldown map -/

theorem process_search_cooldown_shape (M : Nat) (cool : ℤ) (st : BotState)
    (uid : Nat) (text : String) (file : Option (List String)) (now : Time) :
    ((process_search M cool st uid text file now).2.cooldowns = st.cooldowns ∧
      ∀ lines, (process_search M cool st uid text file now).1 ≠ SearchOutcome.found lines) ∨
    ((process_search M cool st uid text file now).2.cooldowns =
        (fun u => if u = uid then now else st.cooldowns u) ∧
      ∃ lines, (process_search M cool st uid text file now).1 = SearchOutcome.found lines) := by
  by_cases hck : (check_cooldown cool st.cooldowns uid now).1 = true
  · by_cases hacc : (user_has_access st.users uid now).1 = true
    · by_cases hkw : (pyStrip text).isEmpty = true
      · left
        rw [process_search_emptyKeyword hck hacc hkw]
        exact ⟨rfl, fun lines h => SearchOutcome.noConfusion h⟩
      · replace hkw : (pyStrip text).isEmpty = false := by simpa using hkw
        by_cases hres :
            (searchScan M uid (pyLower (pyStrip text)) now (reload_logs file) [] st.searches).1 = []
        · left
          rw [process_search_noNew hck hacc hkw hres]
          exact ⟨rfl, fun lines h => SearchOutcome.noConfusion h⟩
        · right
          rw [process_search_foundEq hck hacc hkw hres]
          exact ⟨rfl, _, rfl⟩
    · left
      replace hacc : (user_has_access st.users uid now).1 = false := by simpa using hacc
      rw [process_search_noaccess hck hacc]
      exact ⟨rfl, fun lines h => SearchOutcome.noConfusion h⟩
  · left
    replace hck : (check_cooldown cool st.cooldowns uid now).1 = false := by simpa using hck
    rw [process_search_denied hck]
    exact ⟨rfl, fun lines h => SearchOutcome.noConfusion h⟩

theorem process_search_not_denied {M : Nat} {cool : ℤ} {st : BotState}
    {uid : Nat} {text : String} {file : Option (List String)} {now : Time}
    (hck : (check_cooldown cool st.cooldowns uid now).1 = true) :
    ∀ r, (process_search M cool st uid text file now).1 ≠ SearchOutcome.cooldownDenied r := by
  intro r h
  by_cases hacc : (user_has_access st.users uid now).1 = true
  · by_cases hkw : (pyStrip text).isEmpty = true
    · rw [process_search_emptyKeyword hck hacc hkw] at h
      exact SearchOutcome.noConfusion h
    · replace hkw : (pyStrip text).isEmpty = false := by simpa using hkw
      by_cases hres :
          (searchScan M uid (pyLower (pyStrip text)) now (reload_logs file) [] st.searches).1 = []
      · rw [process_search_noNew hck hacc hkw hres] at h
        exact SearchOutcome.noConfusion h
      · rw [process_search_foundEq hck hacc hkw hres] at h
        exact SearchOutcome.noConfusion h
  · replace hacc : (user_has_access st.users uid now).1 = false := by simpa using hacc
    rw [process_search_noaccess hck hacc] at h
    exact SearchOutcome.noConfusion h

/-! ### Claims -/

/-- C5: `user_has_access` returns false when no Access Record exists; returns
true when the record's `expires` is strictly in the future; and on a record
whose `expires` is in the past it returns false and deletes the record as a
side effect, so a follow-up direct read (`get_user_expiry`) finds it absent. -/
theorem C5_access_lazy_eviction (users : Nat → Option Time) (uid : Nat) (now e : Time) :
    (users uid = none → user_has_access users uid now = (false, users)) ∧
    (users uid = some e → now < e → user_has_access users uid now = (true, users)) ∧
    (users uid = some e → e < now →
      (user_has_access users uid now).1 = false ∧
      get_user_expiry (user_has_access users uid now).2 uid = none) := by
  refine ⟨fun h => user_has_access_none h,
    fun h he => user_has_access_of_valid h (le_of_lt he),
    fun h he => ?_⟩
  rw [user_has_access_expired h (not_le.mpr he)]
  exact ⟨rfl, by simp [get_user_expiry]⟩

/-- Witness for C5: a store where user 1 has an expired record (`expires = 5`
read at time 7) and user 2 has none. -/
theorem C5_access_lazy_eviction_witness :
    user_has_access (fun u => if u = 1 then some 5 else none) 2 7 =
      (false, fun u => if u = 1 then some 5 else none) ∧
    (user_has_access (fun u => if u = 1 then some 5 else none) 1 7).1 = false ∧
    get_user_expiry (user_has_access (fun u => if u = 1 then some 5 else none) 1 7).2 1 = none := by
  refine ⟨(C5_access_lazy_eviction _ 2 7 0).1 (by simp),
    ((C5_access_lazy_eviction _ 1 7 5).2.2 (by simp) (by norm_num)).1,
    ((C5_access_lazy_eviction _ 1 7 5).2.2 (by simp) (by norm_num)).2⟩

/-- C6: recording a delivery for a composite key (user, keyword, line) that
already has a record is a no-op: the check-then-insert unit of src/app.py
lines 657-660 leaves the `searches` table unchanged (and, being total, raises
no error); consequently a repeated `record_delivered` changes nothing. -/
theorem C6_record_delivered_idempotent (s : List SearchRow) (uid : Nat)
    (kw line : String) (t t' : Time) :
    (is_delivered s uid kw line = true → record_delivered s uid kw line t = s) ∧
    record_delivered (record_delivered s uid kw line t) uid kw line t' =
      record_delivered s uid kw line t := by
  constructor
  · intro h
    unfold record_delivered
    rw [if_pos h]
  · by_cases hd : is_delivered s uid kw line = true
    · have h1 : record_delivered s uid kw line t = s := by
        unfold record_delivered; rw [if_pos hd]
      rw [h1]
      unfold record_delivered; rw [if_pos hd]
    · simp only [Bool.not_eq_true] at hd
      have h1 : record_delivered s uid kw line t = s ++ [⟨uid, kw, line, t⟩] := by
        unfold record_delivered; rw [if_neg (by simp [hd])]
      rw [h1]
      unfold record_delivered; rw [if_pos is_delivered_self]

/-- Witness for C6: the key (1, "k", "l") already recorded at time 0; a second
record at time 2 is a no-op. -/
theorem C6_record_delivered_idempotent_witness :
    record_delivered [⟨1, "k", "l", 0⟩] 1 "k" "l" 2 = [⟨1, "k", "l", 0⟩] :=
  (C6_record_delivered_idempotent [⟨1, "k", "l", 0⟩] 1 "k" "l" 2 3).1 (by decide)

/-- C4: the cooldown timestamp is written only by a search returning a
non-empty batch (`found`); cooldown-denied, access-denied, empty-keyword and
no-new-results outcomes leave the cooldown map unchanged. An attempt with
positive remaining `cooldown_duration - (now - last_success)` is denied with
that remaining value rounded up to whole seconds, and an attempt with
non-positive remaining is never cooldown-denied. -/
theorem C4_cooldown_gating (M : Nat) (cool : ℤ) (st : BotState) (uid : Nat)
    (text : String) (file : Option (List String)) (now : Time) :
    ((∃ lines, (process_search M cool st uid text file now).1 = SearchOutcome.found lines) →
      (process_search M cool st uid text file now).2.cooldowns =
        fun u => if u = uid then now else st.cooldowns u) ∧
    ((∀ lines, (process_search M cool st uid text file now).1 ≠ SearchOutcome.found lines) →
      (process_search M cool st uid text file now).2.cooldowns = st.cooldowns) ∧
    (0 < (cool : ℚ) - (now - st.cooldowns uid) →
      (process_search M cool st uid text file now).1 =
        SearchOutcome.cooldownDenied ⌈(cool : ℚ) - (now - st.cooldowns uid)⌉) ∧
    ((cool : ℚ) - (now - st.cooldowns uid) ≤ 0 →
      ∀ r, (process_search M cool st uid text file now).1 ≠ SearchOutcome.cooldownDenied r) := by
  refine ⟨?_, ?_, ?_, ?_⟩
  · intro ⟨lines, hout⟩
    rcases process_search_cooldown_shape M cool st uid text file now with ⟨_, hno⟩ | ⟨h, _⟩
    · exact absurd hout (hno lines)
    · exact h
  · intro hno
    rcases process_search_cooldown_shape M cool st uid text file now with ⟨h, _⟩ | ⟨_, lines, hout⟩
    · exact h
    · exact absurd hout (hno lines)
  · intro hrem
    have hck := check_cooldown_denied hrem
    rw [process_search_denied (by rw [hck])]
    rw [hck]
  · intro hrem
    exact process_search_not_denied (by rw [check_cooldown_allowed hrem])

/-- Witness for C4: with `last_success = 0`, duration 60 and `now = 1` the
attempt is denied with 59 seconds remaining and the cooldown map is unchanged;
with `now = 100` the attempt is not cooldown-denied. -/
theorem C4_cooldown_gating_witness :
    (process_search 200 60 ⟨fun _ => none, [], fun _ => 0, []⟩ 1 "k" (some []) 1).1 =
      SearchOutcome.cooldownDenied 59 ∧
    (process_search 200 60 ⟨fun _ => none, [], fun _ => 0, []⟩ 1 "k" (some []) 1).2.cooldowns =
      (fun _ => 0) ∧
    ∀ r, (process_search 200 60 ⟨fun _ => none, [], fun _ => 0, []⟩ 1 "k" (some []) 100).1 ≠
      SearchOutcome.cooldownDenied r := by
  have h3 := (C4_cooldown_gating 200 60 ⟨fun _ => none, [], fun _ => 0, []⟩ 1 "k" (some []) 1).2.2.1
    (by norm_num)
  refine ⟨?_, ?_, ?_⟩
  · rw [h3]
    norm_num
  · exact (C4_cooldown_gating 200 60 ⟨fun _ => none, [], fun _ => 0, []⟩ 1 "k" (some []) 1).2.1
      (by intro lines h; rw [h3] at h; exact SearchOutcome.noConfusion h)
  · exact (C4_cooldown_gating 200 60 ⟨fun _ => none, [], fun _ => 0, []⟩ 1 "k" (some []) 100).2.2.2
      (by norm_num)

theorem dropWhile_nl_of_not_mem {zs : List Char} (h : '\n' ∉ zs) :
    zs.dropWhile (fun c => c == '\n') = zs := by
  cases zs with
  | nil => rfl
  | cons a t =>
    have ha : (a == '\n') = false := by
      simp only [List.mem_cons, not_or] at h
      exact beq_eq_false_iff_ne.mpr (fun hh => h.1 hh.symm)
    rw [List.dropWhile_cons, ha]
    simp

theorem rstrip_list_eq (xs : List Char) (h : '\n' ∉ xs.dropLast) :
    (xs.reverse.dropWhile (fun c => c == '\n')).reverse =
      if xs.getLast? = some '\n' then xs.dropLast else xs := by
  rcases List.eq_nil_or_concat xs with rfl | ⟨ys, c, rfl⟩
  · simp
  · simp only [List.concat_eq_append] at h ⊢
    rw [List.dropLast_concat] at h
    rw [List.getLast?_concat, List.dropLast_concat]
    rw [List.reverse_append, List.reverse_singleton, List.singleton_append]
    by_cases hcn : c = '\n'
    · subst hcn
      rw [List.dropWhile_cons]
      simp only [beq_self_eq_true, if_true]
      rw [dropWhile_nl_of_not_mem (by simpa using h)]
      simp
    · have hb : (c == '\n') = false := by simp [hcn]
      rw [List.dropWhile_cons, hb]
      simp [hcn, List.concat_eq_append]

theorem rstripNl_eq_dropOneNl {s : String} (h : '\n' ∉ s.toList.dropLast) :
    rstripNl s = dropOneNl s := by
  unfold rstripNl dropOneNl
  rw [rstrip_list_eq s.toList h]
  by_cases hl : s.toList.getLast? = some '\n'
  · rw [if_pos hl, if_pos hl]
  · rw [if_neg hl, if_neg hl]
    cases s with
    | mk data => rfl

/-- C9: the corpus load keeps all non-blank lines of the file in their order,
trimming only the trailing newline of each kept line (for raw lines that
contain a newline only as their final character, as produced by reading a text
file line by line, `reload_logs` agrees with the spec-side `specCorpusLoad`);
a missing file is created empty and loads as the empty corpus, and an
unreadable file also yields the empty corpus instead of an error. -/
theorem C9_corpus_load (ls : List String)
    (hwf : ∀ l ∈ ls, '\n' ∉ l.toList.dropLast) :
    reload_logs none = [] ∧
    reload_logs (some []) = [] ∧
    reload_logs (some ls) = specCorpusLoad ls := by
  refine ⟨rfl, rfl, ?_⟩
  unfold reload_logs specCorpusLoad
  refine List.map_congr_left ?_
  intro x hx
  exact rstripNl_eq_dropOneNl (hwf x (List.mem_of_mem_filter hx))

/-- Witness for C9 at a concrete file: a normal line, a blank line, an empty
line and a final line without trailing newline. -/
theorem C9_corpus_load_witness :
    reload_logs none = [] ∧
    reload_logs (some []) = [] ∧
    reload_logs (some ["ab\n", " \n", "", "x"]) = specCorpusLoad ["ab\n", " \n", "", "x"] :=
  C9_corpus_load ["ab\n", " \n", "", "x"] (by decide)

/-- C10: a search that passes the cooldown and the access check re-reads the
corpus from the log file before scanning: the in-memory corpus is replaced by
`reload_logs file`, and the outcome and resulting state are independent of the
in-memory corpus left over from process start or an earlier reload. -/
theorem C10_per_search_reload (M : Nat) (cool : ℤ) (users : Nat → Option Time)
    (searches : List SearchRow) (cds : Nat → Time) (logs₁ logs₂ : List String)
    (uid : Nat) (text : String) (file : Option (List String)) (now : Time)
    (hck : (check_cooldown cool cds uid now).1 = true)
    (hacc : (user_has_access users uid now).1 = true) :
    (process_search M cool ⟨users, searches, cds, logs₁⟩ uid text file now).2.logs =
      reload_logs file ∧
    process_search M cool ⟨users, searches, cds, logs₁⟩ uid text file now =
      process_search M cool ⟨users, searches, cds, logs₂⟩ uid text file now := by
  have husers := user_has_access_true_users hacc
  by_cases hkw : (pyStrip text).isEmpty = true
  · simp [process_search, hck, hacc, hkw, husers]
  · replace hkw : (pyStrip text).isEmpty = false := by simpa using hkw
    by_cases hres :
        (searchScan M uid (pyLower (pyStrip text)) now (reload_logs file) [] searches).1 = []
    · simp [process_search, hck, hacc, hkw, hres, husers]
    · simp [process_search, hck, hacc, hkw, List.isEmpty_iff, hres, husers]

/-- Witness for C10: with valid access and an expired cooldown, the scan reads
the freshly loaded file contents whatever the stale in-memory corpus was. -/
theorem C10_per_search_reload_witness :
    (process_search 200 60 ⟨fun u => if u = 1 then some 1000 else none, [], fun _ => 0,
        ["stale"]⟩ 1 "a" (some ["aa\n"]) 100).2.logs = reload_logs (some ["aa\n"]) ∧
    process_search 200 60 ⟨fun u => if u = 1 then some 1000 else none, [], fun _ => 0,
        ["stale"]⟩ 1 "a" (some ["aa\n"]) 100 =
      process_search 200 60 ⟨fun u => if u = 1 then some 1000 else none, [], fun _ => 0,
        ["older stale corpus"]⟩ 1 "a" (some ["aa\n"]) 100 := by
  refine C10_per_search_reload 200 60 _ [] _ ["stale"] ["older stale corpus"] 1 "a"
    (some ["aa\n"]) 100 ?_ ?_
  · rw [check_cooldown_allowed (by norm_num)]
  · rw [user_has_access_of_valid
      (show (fun u => if u = 1 then some (1000 : ℚ) else none) 1 = some 1000 by simp)
      (by norm_num : (100 : ℚ) ≤ 1000)]

/-- C3: with the concrete corpus ["error: disk full", "info: ok",
"error: disk full", "warn: low mem"], an authorised user (id 1), cap 200 and
keyword "error", the first search returns Found(["error: disk full"]) and
creates exactly one delivery record despite two textual occurrences of the
line (dedup is keyed on exact line content, not position), and a second search
with the same keyword after the cooldown returns NoNewResults. -/
theorem C3_content_based_dedup :
    (process_search 200 60
        ⟨fun u => if u = 1 then some 1000 else none, [], fun _ => 0, []⟩ 1 "error"
        (some ["error: disk full\n", "info: ok\n", "error: disk full\n", "warn: low mem\n"])
        100).1 = SearchOutcome.found ["error: disk full"] ∧
    (process_search 200 60
        ⟨fun u => if u = 1 then some 1000 else none, [], fun _ => 0, []⟩ 1 "error"
        (some ["error: disk full\n", "info: ok\n", "error: disk full\n", "warn: low mem\n"])
        100).2.searches = [⟨1, "error", "error: disk full", 100⟩] ∧
    (process_search 200 60
        (process_search 200 60
          ⟨fun u => if u = 1 then some 1000 else none, [], fun _ => 0, []⟩ 1 "error"
          (some ["error: disk full\n", "info: ok\n", "error: disk full\n", "warn: low mem\n"])
          100).2 1 "error"
        (some ["error: disk full\n", "info: ok\n", "error: disk full\n", "warn: low mem\n"])
        200).1 = SearchOutcome.noNewResults := by
  have hck1 : (check_cooldown 60 (fun _ => (0 : ℚ)) 1 100).1 = true := by
    rw [check_cooldown_allowed (by norm_num)]
  have hu : (fun u => if u = 1 then some (1000 : ℚ) else none) 1 = some 1000 := by simp
  have hacc1 : (user_has_access (fun u => if u = 1 then some (1000 : ℚ) else none) 1 100).1 =
      true := by
    rw [user_has_access_of_valid hu (by norm_num : (100 : ℚ) ≤ 1000)]
  have hkw : (pyStrip "error").isEmpty = false := by decide
  have hscan1 : searchScan 200 1 (pyLower (pyStrip "error")) 100
      (reload_logs (some ["error: disk full\n", "info: ok\n", "error: disk full\n",
        "warn: low mem\n"])) [] [] =
      (["error: disk full"], [⟨1, "error", "error: disk full", 100⟩]) := by
    decide
  have hres1 : (searchScan 200 1 (pyLower (pyStrip "error")) 100
      (reload_logs (some ["error: disk full\n", "info: ok\n", "error: disk full\n",
        "warn: low mem\n"])) [] []).1 ≠ [] := by
    rw [hscan1]; simp
  have e1 : process_search 200 60
      (⟨fun u => if u = 1 then some 1000 else none, [], fun _ => 0, []⟩ : BotState) 1 "error"
      (some ["error: disk full\n", "info: ok\n", "error: disk full\n", "warn: low mem\n"])
      100 =
      (SearchOutcome.found ["error: disk full"],
       ⟨fun u => if u = 1 then some 1000 else none,
        [⟨1, "error", "error: disk full", 100⟩],
        fun u => if u = 1 then 100 else 0,
        ["error: disk full", "info: ok", "error: disk full", "warn: low mem"]⟩) := by
    rw [process_search_foundEq hck1 hacc1 hkw hres1, hscan1]
    rfl
  have hck2 : (check_cooldown 60 (fun u => if u = 1 then (100 : ℚ) else 0) 1 200).1 = true := by
    rw [check_cooldown_allowed (by norm_num)]
  have hacc2 : (user_has_access (fun u => if u = 1 then some (1000 : ℚ) else none) 1 200).1 =
      true := by
    rw [user_has_access_of_valid hu (by norm_num : (200 : ℚ) ≤ 1000)]
  have hscan2 : (searchScan 200 1 (pyLower (pyStrip "error")) 200
      (reload_logs (some ["error: disk full\n", "info: ok\n", "error: disk full\n",
        "warn: low mem\n"])) [] [⟨1, "error", "error: disk full", 100⟩]).1 = [] := by
    decide
  have e2 : (process_search 200 60
      (⟨fun u => if u = 1 then some 1000 else none,
        [⟨1, "error", "error: disk full", 100⟩],
        fun u => if u = 1 then 100 else 0,
        ["error: disk full", "info: ok", "error: disk full", "warn: low mem"]⟩ : BotState)
      1 "error"
      (some ["error: disk full\n", "info: ok\n", "error: disk full\n", "warn: low mem\n"])
      200).1 = SearchOutcome.noNewResults := by
    rw [process_search_noNew hck2 hacc2 hkw hscan2]
  refine ⟨?_, ?_, ?_⟩
  · rw [e1]
  · rw [e1]
  · rw [e1]
    exact e2

/-- Counterexample to C1 as stated: with cap `MAX_LINES = 1`, corpus
["aa", "ab"], keyword "a" and an empty ledger, the first search returns only
["aa"] — not the full set of matching, undelivered lines, since "ab" matches,
is undelivered and is not in the batch — and the second search (past the
cooldown) returns Found(["ab"]), not NoNewResults. -/
theorem C1_counterexample :
    (process_search 1 60 ⟨fun u => if u = 1 then some 1000 else none, [], fun _ => 0, []⟩
        1 "a" (some ["aa\n", "ab\n"]) 100).1 = SearchOutcome.found ["aa"] ∧
    "ab" ∈ reload_logs (some ["aa\n", "ab\n"]) ∧
    pyIn (pyLower (pyStrip "a")) (pyLower "ab") = true ∧
    is_delivered ([] : List SearchRow) 1 (pyLower (pyStrip "a")) "ab" = false ∧
    "ab" ∉ (["aa"] : List String) ∧
    (process_search 1 60
        (process_search 1 60 ⟨fun u => if u = 1 then some 1000 else none, [], fun _ => 0, []⟩
          1 "a" (some ["aa\n", "ab\n"]) 100).2
        1 "a" (some ["aa\n", "ab\n"]) 200).1 = SearchOutcome.found ["ab"] ∧
    (SearchOutcome.found ["ab"] : SearchOutcome) ≠ SearchOutcome.noNewResults := by
  have hck1 : (check_cooldown 60 (fun _ => (0 : ℚ)) 1 100).1 = true := by
    rw [check_cooldown_allowed (by norm_num)]
  have hu : (fun u => if u = 1 then some (1000 : ℚ) else none) 1 = some 1000 := by simp
  have hacc1 : (user_has_access (fun u => if u = 1 then some (1000 : ℚ) else none) 1 100).1 =
      true := by
    rw [user_has_access_of_valid hu (by norm_num : (100 : ℚ) ≤ 1000)]
  have hkw : (pyStrip "a").isEmpty = false := by decide
  have hscan1 : searchScan 1 1 (pyLower (pyStrip "a")) 100
      (reload_logs (some ["aa\n", "ab\n"])) [] [] = (["aa"], [⟨1, "a", "aa", 100⟩]) := by
    decide
  have hres1 : (searchScan 1 1 (pyLower (pyStrip "a")) 100
      (reload_logs (some ["aa\n", "ab\n"])) [] []).1 ≠ [] := by
    rw [hscan1]; simp
  have e1 : process_search 1 60
      (⟨fun u => if u = 1 then some 1000 else none, [], fun _ => 0, []⟩ : BotState) 1 "a"
      (some ["aa\n", "ab\n"]) 100 =
      (SearchOutcome.found ["aa"],
       ⟨fun u => if u = 1 then some 1000 else none, [⟨1, "a", "aa", 100⟩],
        fun u => if u = 1 then 100 else 0, ["aa", "ab"]⟩) := by
    rw [process_search_foundEq hck1 hacc1 hkw hres1, hscan1]
    rfl
  have hck2 : (check_cooldown 60 (fun u => if u = 1 then (100 : ℚ) else 0) 1 200).1 = true := by
    rw [check_cooldown_allowed (by norm_num)]
  have hacc2 : (user_has_access (fun u => if u = 1 then some (1000 : ℚ) else none) 1 200).1 =
      true := by
    rw [user_has_access_of_valid hu (by norm_num : (200 : ℚ) ≤ 1000)]
  have hscan2 : searchScan 1 1 (pyLower (pyStrip "a")) 200
      (reload_logs (some ["aa\n", "ab\n"])) [] [⟨1, "a", "aa", 100⟩] =
      (["ab"], [⟨1, "a", "aa", 100⟩, ⟨1, "a", "ab", 200⟩]) := by
    decide
  have hres2 : (searchScan 1 1 (pyLower (pyStrip "a")) 200
      (reload_logs (some ["aa\n", "ab\n"])) [] [⟨1, "a", "aa", 100⟩]).1 ≠ [] := by
    rw [hscan2]; simp
  have e2 : (process_search 1 60
      (⟨fun u => if u = 1 then some 1000 else none, [⟨1, "a", "aa", 100⟩],
        fun u => if u = 1 then 100 else 0, ["aa", "ab"]⟩ : BotState) 1 "a"
      (some ["aa\n", "ab\n"]) 200).1 = SearchOutcome.found ["ab"] := by
    rw [process_search_foundEq hck2 hacc2 hkw hres2, hscan2]
  refine ⟨?_, by decide, by decide, by decide, by decide, ?_, by simp⟩
  · rw [e1]
  · rw [e1]
    exact e2

/-- C1 amended: the dedup idempotence holds once the number of distinct
matching, not-yet-delivered line contents is at most the cap `MAX_LINES`
(the counterexample shows it fails when the cap is exceeded). Under that
proviso, with access valid at both times and the second call past the
cooldown: when no new match exists both calls return NoNewResults; otherwise
the first call returns Found of exactly the set of matching, not-yet-delivered
contents of the corpus (without duplicates) and the second call over the
unchanged corpus returns NoNewResults. -/
theorem C1_dedup_idempotence_amended (M : Nat) (cool : ℤ) (st : BotState)
    (uid : Nat) (text : String) (file : Option (List String)) (now₁ now₂ e : Time)
    (hck1 : (cool : ℚ) - (now₁ - st.cooldowns uid) ≤ 0)
    (hnow : now₁ ≤ now₂)
    (hck2 : (cool : ℚ) ≤ now₂ - now₁)
    (hu : st.users uid = some e) (he1 : now₁ ≤ e) (he2 : now₂ ≤ e)
    (hkw : (pyStrip text).isEmpty = false)
    (hcap : newMatchCount uid (pyLower (pyStrip text)) now₁ st.searches
        (reload_logs file) ≤ M) :
    (newMatchCount uid (pyLower (pyStrip text)) now₁ st.searches (reload_logs file) = 0 →
      (process_search M cool st uid text file now₁).1 = SearchOutcome.noNewResults ∧
      (process_search M cool (process_search M cool st uid text file now₁).2
          uid text file now₂).1 = SearchOutcome.noNewResults) ∧
    (newMatchCount uid (pyLower (pyStrip text)) now₁ st.searches (reload_logs file) ≠ 0 →
      ∃ lines, (process_search M cool st uid text file now₁).1 = SearchOutcome.found lines ∧
        lines.Nodup ∧
        (∀ x, x ∈ lines ↔ (x ∈ reload_logs file ∧
          pyIn (pyLower (pyStrip text)) (pyLower x) = true ∧
          is_delivered st.searches uid (pyLower (pyStrip text)) x = false)) ∧
        (process_search M cool (process_search M cool st uid text file now₁).2
            uid text file now₂).1 = SearchOutcome.noNewResults) := by
  have hckb1 : (check_cooldown cool st.cooldowns uid now₁).1 = true := by
    rw [check_cooldown_allowed hck1]
  have haccb1 : (user_has_access st.users uid now₁).1 = true := by
    rw [user_has_access_of_valid hu he1]
  have hlen := searchScan_len M uid (pyLower (pyStrip text)) now₁ (reload_logs file) []
    st.searches (by simp)
  constructor
  · intro h0
    have hA1 : (searchScan M uid (pyLower (pyStrip text)) now₁ (reload_logs file) []
        st.searches).1 = [] := by
      have hl0 : (searchScan M uid (pyLower (pyStrip text)) now₁ (reload_logs file) []
          st.searches).1.length = 0 := by
        rw [hlen, h0]; simp
      exact List.length_eq_zero.mp hl0
    have e1 := process_search_noNew hckb1 haccb1 hkw hA1
    have hA2 : (searchScan M uid (pyLower (pyStrip text)) now₁ (reload_logs file) []
        st.searches).2 = st.searches := by
      obtain ⟨d, hdd⟩ := searchScan_struct M uid (pyLower (pyStrip text)) now₁
        (reload_logs file) [] st.searches
      have hfst := congrArg Prod.fst hdd
      simp only [hA1] at hfst
      have hd0 : d = [] := by simpa using hfst.symm
      rw [hdd, hd0]
      simp
    have hdel : ∀ x ∈ reload_logs file, pyIn (pyLower (pyStrip text)) (pyLower x) = true →
        is_delivered st.searches uid (pyLower (pyStrip text)) x = true :=
      newMatchCount_zero uid (pyLower (pyStrip text)) now₁ (reload_logs file) st.searches h0
    have hckb2 : (check_cooldown cool
        ({ st with
            searches := (searchScan M uid (pyLower (pyStrip text)) now₁ (reload_logs file) []
              st.searches).2,
            logs := reload_logs file } : BotState).cooldowns uid now₂).1 = true := by
      show (check_cooldown cool st.cooldowns uid now₂).1 = true
      rw [check_cooldown_allowed (by linarith)]
    have haccb2 : (user_has_access
        ({ st with
            searches := (searchScan M uid (pyLower (pyStrip text)) now₁ (reload_logs file) []
              st.searches).2,
            logs := reload_logs file } : BotState).users uid now₂).1 = true := by
      show (user_has_access st.users uid now₂).1 = true
      rw [user_has_access_of_valid hu he2]
    have hscan2 : (searchScan M uid (pyLower (pyStrip text)) now₂ (reload_logs file) []
        ({ st with
            searches := (searchScan M uid (pyLower (pyStrip text)) now₁ (reload_logs file) []
              st.searches).2,
            logs := reload_logs file } : BotState).searches).1 = [] := by
      show (searchScan M uid (pyLower (pyStrip text)) now₂ (reload_logs file) []
        (searchScan M uid (pyLower (pyStrip text)) now₁ (reload_logs file) []
          st.searches).2).1 = []
      rw [hA2]
      rw [searchScan_all_delivered M uid (pyLower (pyStrip text)) now₂ (reload_logs file)
        st.searches hdel]
    constructor
    · rw [e1]
    · rw [e1]
      rw [process_search_noNew hckb2 haccb2 hkw hscan2]
  · intro h1
    have hne : (searchScan M uid (pyLower (pyStrip text)) now₁ (reload_logs file) []
        st.searches).1 ≠ [] := by
      intro h
      rw [h] at hlen
      simp only [List.length_nil, List.length_cons] at hlen
      omega
    have e1 := process_search_foundEq hckb1 haccb1 hkw hne
    refine ⟨(searchScan M uid (pyLower (pyStrip text)) now₁ (reload_logs file) []
      st.searches).1, by rw [e1], ?_, ?_, ?_⟩
    · exact searchScan_nodup M uid (pyLower (pyStrip text)) now₁ (reload_logs file) []
        st.searches (fun y hy => absurd hy (List.not_mem_nil y)) List.nodup_nil
    · intro x
      constructor
      · intro hx
        rcases searchScan_mem M uid (pyLower (pyStrip text)) now₁ (reload_logs file) []
          st.searches x hx with h | h
        · exact absurd h (List.not_mem_nil x)
        · exact h
      · intro hx
        exact searchScan_mem_rev M uid (pyLower (pyStrip text)) now₁
          (by simpa using hcap) hx.1 hx.2.1 hx.2.2
    · have hdel2 : ∀ x ∈ reload_logs file, pyIn (pyLower (pyStrip text)) (pyLower x) = true →
          is_delivered (searchScan M uid (pyLower (pyStrip text)) now₁ (reload_logs file) []
            st.searches).2 uid (pyLower (pyStrip text)) x = true :=
        searchScan_complete M uid (pyLower (pyStrip text)) now₁ (reload_logs file) []
          st.searches (by simpa using hcap)
      have hckb2 : (check_cooldown cool
          ({ st with
              searches := (searchScan M uid (pyLower (pyStrip text)) now₁ (reload_logs file) []
                st.searches).2,
              logs := reload_logs file,
              cooldowns := fun u => if u = uid then now₁ else st.cooldowns u } :
            BotState).cooldowns uid now₂).1 = true := by
        show (check_cooldown cool (fun u => if u = uid then now₁ else st.cooldowns u)
          uid now₂).1 = true
        have hrem : (cool : ℚ) -
            (now₂ - (fun u => if u = uid then now₁ else st.cooldowns u) uid) ≤ 0 := by
          show (cool : ℚ) - (now₂ - (if uid = uid then now₁ else st.cooldowns uid)) ≤ 0
          rw [if_pos rfl]
          linarith
        rw [check_cooldown_allowed hrem]
      have haccb2 : (user_has_access
          ({ st with
              searches := (searchScan M uid (pyLower (pyStrip text)) now₁ (reload_logs file) []
                st.searches).2,
              logs := reload_logs file,
              cooldowns := fun u => if u = uid then now₁ else st.cooldowns u } :
            BotState).users uid now₂).1 = true := by
        show (user_has_access st.users uid now₂).1 = true
        rw [user_has_access_of_valid hu he2]
      have hscan2 : (searchScan M uid (pyLower (pyStrip text)) now₂ (reload_logs file) []
          ({ st with
              searches := (searchScan M uid (pyLower (pyStrip text)) now₁ (reload_logs file) []
                st.searches).2,
              logs := reload_logs file,
              cooldowns := fun u => if u = uid then now₁ else st.cooldowns u } :
            BotState).searches).1 = [] := by
        show (searchScan M uid (pyLower (pyStrip text)) now₂ (reload_logs file) []
          (searchScan M uid (pyLower (pyStrip text)) now₁ (reload_logs file) []
            st.searches).2).1 = []
        rw [searchScan_all_delivered M uid (pyLower (pyStrip text)) now₂ (reload_logs file)
          _ hdel2]
      rw [e1]
      rw [process_search_noNew hckb2 haccb2 hkw hscan2]

/-- Witness for the amended C1: corpus ["aa", "ab"], keyword "a", cap 200
(two distinct new matches, below the cap), an authorised user and a second
call past the cooldown. -/
theorem C1_dedup_idempotence_amended_witness :
    ∃ lines, (process_search 200 60
        ⟨fun u => if u = 1 then some 1000 else none, [], fun _ => 0, []⟩ 1 "a"
        (some ["aa\n", "ab\n"]) 100).1 = SearchOutcome.found lines ∧
      lines.Nodup ∧
      (∀ x, x ∈ lines ↔ (x ∈ reload_logs (some ["aa\n", "ab\n"]) ∧
        pyIn (pyLower (pyStrip "a")) (pyLower x) = true ∧
        is_delivered ([] : List SearchRow) 1 (pyLower (pyStrip "a")) x = false)) ∧
      (process_search 200 60 (process_search 200 60
          ⟨fun u => if u = 1 then some 1000 else none, [], fun _ => 0, []⟩ 1 "a"
          (some ["aa\n", "ab\n"]) 100).2 1 "a" (some ["aa\n", "ab\n"]) 200).1 =
        SearchOutcome.noNewResults :=
  (C1_dedup_idempotence_amended 200 60
    ⟨fun u => if u = 1 then some 1000 else none, [], fun _ => 0, []⟩ 1 "a"
    (some ["aa\n", "ab\n"]) 100 200 1000
    (by norm_num) (by norm_num) (by norm_num) (by simp) (by norm_num) (by norm_num)
    (by decide) (by decide)).2 (by decide)

/-- C2: when the matching, undelivered contents strictly exceed the (positive)
cap `MAX_LINES = M`, the first search returns a batch of exactly M lines (the
report caption's count equals the cap); the scan short-circuits: there is a
minimal prefix of the corpus on which the batch already reaches the cap, the
scan's whole result equals the scan of that prefix, and replacing everything
after that point changes nothing, so lines past the cap point are never
examined; and the second search (past the cooldown) surfaces further matches:
a non-empty batch of previously uncapped matching, undelivered lines disjoint
from the first batch. -/
theorem C2_cap_short_circuit (M : Nat) (cool : ℤ) (st : BotState)
    (uid : Nat) (text : String) (file : Option (List String)) (now₁ now₂ e : Time)
    (hM : 0 < M)
    (hck1 : (cool : ℚ) - (now₁ - st.cooldowns uid) ≤ 0)
    (hck2 : (cool : ℚ) ≤ now₂ - now₁)
    (hu : st.users uid = some e) (he1 : now₁ ≤ e) (he2 : now₂ ≤ e)
    (hkw : (pyStrip text).isEmpty = false)
    (hcap : M < newMatchCount uid (pyLower (pyStrip text)) now₁ st.searches
        (reload_logs file)) :
    ∃ lines₁,
      (process_search M cool st uid text file now₁).1 = SearchOutcome.found lines₁ ∧
      lines₁.length = M ∧
      (∃ n ≤ (reload_logs file).length,
        searchScan M uid (pyLower (pyStrip text)) now₁ (reload_logs file) [] st.searches =
          searchScan M uid (pyLower (pyStrip text)) now₁ ((reload_logs file).take n) []
            st.searches ∧
        (∀ m, m < n →
          (searchScan M uid (pyLower (pyStrip text)) now₁ ((reload_logs file).take m) []
            st.searches).1.length < M) ∧
        (∀ tail, searchScan M uid (pyLower (pyStrip text)) now₁
            ((reload_logs file).take n ++ tail) [] st.searches =
          searchScan M uid (pyLower (pyStrip text)) now₁ ((reload_logs file).take n) []
            st.searches)) ∧
      (∃ lines₂,
        (process_search M cool (process_search M cool st uid text file now₁).2
            uid text file now₂).1 = SearchOutcome.found lines₂ ∧
        lines₂ ≠ [] ∧
        ∀ x ∈ lines₂, x ∈ reload_logs file ∧
          pyIn (pyLower (pyStrip text)) (pyLower x) = true ∧
          is_delivered st.searches uid (pyLower (pyStrip text)) x = false ∧
          x ∉ lines₁) := by
  have hckb1 : (check_cooldown cool st.cooldowns uid now₁).1 = true := by
    rw [check_cooldown_allowed hck1]
  have haccb1 : (user_has_access st.users uid now₁).1 = true := by
    rw [user_has_access_of_valid hu he1]
  have hlen := searchScan_len M uid (pyLower (pyStrip text)) now₁ (reload_logs file) []
    st.searches (by simp)
  have hlenM : (searchScan M uid (pyLower (pyStrip text)) now₁ (reload_logs file) []
      st.searches).1.length = M := by
    rw [hlen]; simp only [List.length_nil, Nat.zero_add]; omega
  have hne : (searchScan M uid (pyLower (pyStrip text)) now₁ (reload_logs file) []
      st.searches).1 ≠ [] := by
    intro h
    rw [h] at hlenM
    simp only [List.length_nil] at hlenM
    omega
  have e1 := process_search_foundEq hckb1 haccb1 hkw hne
  refine ⟨(searchScan M uid (pyLower (pyStrip text)) now₁ (reload_logs file) []
    st.searches).1, by rw [e1], hlenM, ?_, ?_⟩
  · -- short-circuit: minimal cap point
    have hPex : ∃ n, M ≤ (searchScan M uid (pyLower (pyStrip text)) now₁
        ((reload_logs file).take n) [] st.searches).1.length := by
      refine ⟨(reload_logs file).length, ?_⟩
      rw [List.take_length, hlenM]
    set n₀ := Nat.find hPex with hn₀def
    have hPn₀ := Nat.find_spec hPex
    have hle : n₀ ≤ (reload_logs file).length := by
      apply Nat.find_min'
      rw [List.take_length, hlenM]
    have hscantail : ∀ tail, searchScan M uid (pyLower (pyStrip text)) now₁
        ((reload_logs file).take n₀ ++ tail) [] st.searches =
        searchScan M uid (pyLower (pyStrip text)) now₁ ((reload_logs file).take n₀) []
          st.searches := by
      intro tail
      rw [searchScan_append]
      rw [searchScan_stop hPn₀]
    refine ⟨n₀, hle, ?_, ?_, hscantail⟩
    · have := hscantail ((reload_logs file).drop n₀)
      rw [List.take_append_drop] at this
      exact this
    · intro m hm
      have := Nat.find_min hPex hm
      omega
  · -- the second call surfaces remaining matches
    have hcnt := searchScan_cnt M uid (pyLower (pyStrip text)) now₁ (reload_logs file) []
      st.searches
    simp only [List.length_nil, Nat.add_zero] at hcnt
    rw [hlenM] at hcnt
    have hkeyt : newMatchCount uid (pyLower (pyStrip text)) now₂
        (searchScan M uid (pyLower (pyStrip text)) now₁ (reload_logs file) []
          st.searches).2 (reload_logs file) =
        newMatchCount uid (pyLower (pyStrip text)) now₁
        (searchScan M uid (pyLower (pyStrip text)) now₁ (reload_logs file) []
          st.searches).2 (reload_logs file) :=
      newMatchCount_keys uid (pyLower (pyStrip text)) (reload_logs file) _ _ now₂ now₁ rfl
    have hBlen := searchScan_len M uid (pyLower (pyStrip text)) now₂ (reload_logs file) []
      (searchScan M uid (pyLower (pyStrip text)) now₁ (reload_logs file) []
        st.searches).2 (by simp)
    have hBpos : 0 < (searchScan M uid (pyLower (pyStrip text)) now₂ (reload_logs file) []
        (searchScan M uid (pyLower (pyStrip text)) now₁ (reload_logs file) []
          st.searches).2).1.length := by
      rw [hBlen, hkeyt]
      simp only [List.length_nil, Nat.zero_add]
      omega
    have hneB0 : (searchScan M uid (pyLower (pyStrip text)) now₂ (reload_logs file) []
        (searchScan M uid (pyLower (pyStrip text)) now₁ (reload_logs file) []
          st.searches).2).1 ≠ [] := by
      intro h
      rw [h] at hBpos
      simp at hBpos
    have hckb2 : (check_cooldown cool
        ({ st with
            searches := (searchScan M uid (pyLower (pyStrip text)) now₁ (reload_logs file) []
              st.searches).2,
            logs := reload_logs file,
            cooldowns := fun u => if u = uid then now₁ else st.cooldowns u } :
          BotState).cooldowns uid now₂).1 = true := by
      show (check_cooldown cool (fun u => if u = uid then now₁ else st.cooldowns u)
        uid now₂).1 = true
      have hrem : (cool : ℚ) -
          (now₂ - (fun u => if u = uid then now₁ else st.cooldowns u) uid) ≤ 0 := by
        show (cool : ℚ) - (now₂ - (if uid = uid then now₁ else st.cooldowns uid)) ≤ 0
        rw [if_pos rfl]
        linarith
      rw [check_cooldown_allowed hrem]
    have haccb2 : (user_has_access
        ({ st with
            searches := (searchScan M uid (pyLower (pyStrip text)) now₁ (reload_logs file) []
              st.searches).2,
            logs := reload_logs file,
            cooldowns := fun u => if u = uid then now₁ else st.cooldowns u } :
          BotState).users uid now₂).1 = true := by
      show (user_has_access st.users uid now₂).1 = true
      rw [user_has_access_of_valid hu he2]
    have hneB : (searchScan M uid (pyLower (pyStrip text)) now₂ (reload_logs file) []
        ({ st with
            searches := (searchScan M uid (pyLower (pyStrip text)) now₁ (reload_logs file) []
              st.searches).2,
            logs := reload_logs file,
            cooldowns := fun u => if u = uid then now₁ else st.cooldowns u } :
          BotState).searches).1 ≠ [] := by
      show (searchScan M uid (pyLower (pyStrip text)) now₂ (reload_logs file) []
        (searchScan M uid (pyLower (pyStrip text)) now₁ (reload_logs file) []
          st.searches).2).1 ≠ []
      exact hneB0
    have e2 := process_search_foundEq hckb2 haccb2 hkw hneB
    refine ⟨(searchScan M uid (pyLower (pyStrip text)) now₂ (reload_logs file) []
      (searchScan M uid (pyLower (pyStrip text)) now₁ (reload_logs file) []
        st.searches).2).1, ?_, hneB0, ?_⟩
    · rw [e1, e2]
    · intro x hx
      obtain ⟨d, hdd⟩ := searchScan_struct M uid (pyLower (pyStrip text)) now₁
        (reload_logs file) [] st.searches
      rcases searchScan_mem M uid (pyLower (pyStrip text)) now₂ (reload_logs file) []
        (searchScan M uid (pyLower (pyStrip text)) now₁ (reload_logs file) []
          st.searches).2 x hx with h | ⟨hx1, hx2, hx3⟩
      · exact absurd h (List.not_mem_nil x)
      · have hs0 : is_delivered st.searches uid (pyLower (pyStrip text)) x = false := by
          rw [hdd] at hx3
          simp only at hx3
          exact is_delivered_append_false hx3
        refine ⟨hx1, hx2, hs0, ?_⟩
        intro hmem
        rw [hdd] at hmem
        simp only [List.nil_append] at hmem
        have : is_delivered (st.searches ++
            d.map (fun l => (⟨uid, pyLower (pyStrip text), l, now₁⟩ : SearchRow)))
            uid (pyLower (pyStrip text)) x = true :=
          is_delivered_append_right (is_delivered_map_row hmem)
        rw [hdd] at hx3
        simp only at hx3
        rw [this] at hx3
        cases hx3

/-- Witness for C2: cap 1, corpus ["aa", "ab"], keyword "a" — two distinct new
matches exceed the cap. -/
theorem C2_cap_short_circuit_witness :
    ∃ lines₁,
      (process_search 1 60 ⟨fun u => if u = 1 then some 1000 else none, [], fun _ => 0, []⟩
          1 "a" (some ["aa\n", "ab\n"]) 100).1 = SearchOutcome.found lines₁ ∧
      lines₁.length = 1 ∧
      (∃ n ≤ (reload_logs (some ["aa\n", "ab\n"])).length,
        searchScan 1 1 (pyLower (pyStrip "a")) 100 (reload_logs (some ["aa\n", "ab\n"])) [] [] =
          searchScan 1 1 (pyLower (pyStrip "a")) 100
            ((reload_logs (some ["aa\n", "ab\n"])).take n) [] [] ∧
        (∀ m, m < n →
          (searchScan 1 1 (pyLower (pyStrip "a")) 100
            ((reload_logs (some ["aa\n", "ab\n"])).take m) [] []).1.length < 1) ∧
        (∀ tail, searchScan 1 1 (pyLower (pyStrip "a")) 100
            ((reload_logs (some ["aa\n", "ab\n"])).take n ++ tail) [] [] =
          searchScan 1 1 (pyLower (pyStrip "a")) 100
            ((reload_logs (some ["aa\n", "ab\n"])).take n) [] [])) ∧
      (∃ lines₂,
        (process_search 1 60
            (process_search 1 60
              ⟨fun u => if u = 1 then some 1000 else none, [], fun _ => 0, []⟩
              1 "a" (some ["aa\n", "ab\n"]) 100).2
            1 "a" (some ["aa\n", "ab\n"]) 200).1 = SearchOutcome.found lines₂ ∧
        lines₂ ≠ [] ∧
        ∀ x ∈ lines₂, x ∈ reload_logs (some ["aa\n", "ab\n"]) ∧
          pyIn (pyLower (pyStrip "a")) (pyLower x) = true ∧
          is_delivered ([] : List SearchRow) 1 (pyLower (pyStrip "a")) x = false ∧
          x ∉ lines₁) :=
  C2_cap_short_circuit 1 60 ⟨fun u => if u = 1 then some 1000 else none, [], fun _ => 0, []⟩
    1 "a" (some ["aa\n", "ab\n"]) 100 200 1000
    (by norm_num) (by norm_num) (by norm_num) (by simp) (by norm_num) (by norm_num)
    (by decide) (by decide)

/-! ### Key redemption -/

theorem redeem_fail {keys : List KeyRow} {users : Nat → Option Time}
    {token : String} {uid : Nat}
    (h : ∀ r ∈ keys, ¬(r.key = token ∧ r.redeemed_by = none)) :
    redeem keys users token uid = (none, keys, users) := by
  unfold redeem
  have hfind : keys.find? (fun k => k.key == token && k.redeemed_by == none) = none := by
    rw [List.find?_eq_none]
    intro x hx hc
    simp only [Bool.and_eq_true, beq_iff_eq] at hc
    exact h x hx ⟨hc.1, hc.2⟩
  rw [hfind]

theorem redeem_succ (users : Nat → Option Time) (uid : Nat)
    {keys : List KeyRow} {token : String} {k : KeyRow}
    (hfind : keys.find? (fun k => k.key == token && k.redeemed_by == none) = some k) :
    redeem keys users token uid =
      (some k.expires,
       keys.map (fun r => if r.key == token then { r with redeemed_by := some uid } else r),
       fun u => if u = uid then some k.expires else users u) := by
  unfold redeem
  rw [hfind]

theorem redeem_marked (keys : List KeyRow) (token : String) (uid : Nat) :
    ∀ r' ∈ keys.map (fun r => if r.key == token then { r with redeemed_by := some uid } else r),
      ¬(r'.key = token ∧ r'.redeemed_by = none) := by
  intro r' hr'
  obtain ⟨r, _, rfl⟩ := List.mem_map.mp hr'
  by_cases h : (r.key == token) = true
  · rw [if_pos h]
    intro hc
    simp at hc
  · rw [if_neg h]
    intro hc
    exact h (by simp [hc.1])

theorem redeemAll_none (token : String) :
    ∀ (us : List Nat) (keys : List KeyRow) (users : Nat → Option Time),
      (∀ r ∈ keys, ¬(r.key = token ∧ r.redeemed_by = none)) →
      redeemAll token us keys users = us.map (fun _ => none) := by
  intro us
  induction us with
  | nil => intro keys users _; rfl
  | cons u us ih =>
    intro keys users h
    simp only [redeemAll, List.map_cons]
    rw [redeem_fail h]
    exact congrArg _ (ih keys users h)

theorem countP_map_none (us : List Nat) :
    ((us.map (fun _ => (none : Option Time))).countP (fun o => o.isSome)) = 0 := by
  induction us with
  | nil => rfl
  | cons u us ih => simp [List.countP_cons, ih]

theorem redeemAll_one {keys : List KeyRow} {users : Nat → Option Time}
    {token : String} {uid : Nat} {us : List Nat} {row : KeyRow}
    (hrow : row ∈ keys) (hk : row.key = token) (hn : row.redeemed_by = none) :
    (redeemAll token (uid :: us) keys users).countP (fun o => o.isSome) = 1 := by
  have hex : ∃ k, keys.find? (fun k => k.key == token && k.redeemed_by == none) = some k := by
    cases hfind : keys.find? (fun k => k.key == token && k.redeemed_by == none) with
    | some k => exact ⟨k, rfl⟩
    | none =>
      rw [List.find?_eq_none] at hfind
      exact absurd (by simp [hk, hn] : (row.key == token && row.redeemed_by == none) = true)
        (by simpa using hfind row hrow)
  obtain ⟨k, hfind⟩ := hex
  have e := redeem_succ users uid hfind
  have hall : redeemAll token (uid :: us) keys users =
      some k.expires :: us.map (fun _ => none) := by
    simp only [redeemAll]
    rw [e]
    exact congrArg _ (redeemAll_none token us _ _ (redeem_marked keys token uid))
  rw [hall]
  simp [List.countP_cons, countP_map_none]

/-- C7: redemption (modelled from spec §4.2, the handler being absent from
src/app.py) succeeds exactly when a key row with the token and null
`redeemed_by` exists; on success (with unique tokens) it returns that key's
`expires`, upserts the user's Access Record to it and marks the key redeemed
by the user; an absent or already-redeemed token fails (InvalidOrUsedKey);
and of N serialised atomic redemption attempts on one initially unredeemed
key, exactly one succeeds. -/
theorem C7_redeem_single_use (keys : List KeyRow) (users : Nat → Option Time)
    (token : String) (uid : Nat) (row : KeyRow) :
    ((redeem keys users token uid).1.isSome = true ↔
      ∃ r ∈ keys, r.key = token ∧ r.redeemed_by = none) ∧
    ((∀ r ∈ keys, r.key = token → r.redeemed_by ≠ none) →
      redeem keys users token uid = (none, keys, users)) ∧
    (row ∈ keys → row.key = token → row.redeemed_by = none →
      (∀ a ∈ keys, ∀ b ∈ keys, a.key = b.key → a = b) →
      (redeem keys users token uid).1 = some row.expires ∧
      (redeem keys users token uid).2.2 uid = some row.expires ∧
      (∀ r' ∈ (redeem keys users token uid).2.1, r'.key = token →
        r'.redeemed_by = some uid)) ∧
    (row ∈ keys → row.key = token → row.redeemed_by = none →
      ∀ us : List Nat,
        (redeemAll token (uid :: us) keys users).countP (fun o => o.isSome) = 1) := by
  refine ⟨?_, ?_, ?_, ?_⟩
  · constructor
    · intro h
      cases hfind : keys.find? (fun k => k.key == token && k.redeemed_by == none) with
      | none =>
        have hfail : ∀ r ∈ keys, ¬(r.key = token ∧ r.redeemed_by = none) := by
          intro r hr hc
          rw [List.find?_eq_none] at hfind
          exact absurd (by simp [hc.1, hc.2] :
            (r.key == token && r.redeemed_by == none) = true) (by simpa using hfind r hr)
        rw [redeem_fail hfail] at h
        simp at h
      | some k =>
        refine ⟨k, List.mem_of_find?_eq_some hfind, ?_⟩
        have := List.find?_some hfind
        simpa using this
    · intro ⟨r, hr, h1, h2⟩
      cases hfind : keys.find? (fun k => k.key == token && k.redeemed_by == none) with
      | none =>
        rw [List.find?_eq_none] at hfind
        exact absurd (by simp [h1, h2] : (r.key == token && r.redeemed_by == none) = true)
          (by simpa using hfind r hr)
      | some k =>
        rw [redeem_succ users uid hfind]
        rfl
  · intro h
    exact redeem_fail (fun r hr hc => h r hr hc.1 hc.2)
  · intro hrow hk hn huniq
    have hex : ∃ k, keys.find? (fun k => k.key == token && k.redeemed_by == none) = some k := by
      cases hfind : keys.find? (fun k => k.key == token && k.redeemed_by == none) with
      | some k => exact ⟨k, rfl⟩
      | none =>
        rw [List.find?_eq_none] at hfind
        exact absurd (by simp [hk, hn] : (row.key == token && row.redeemed_by == none) = true)
          (by simpa using hfind row hrow)
    obtain ⟨k, hfind⟩ := hex
    have hkmem := List.mem_of_find?_eq_some hfind
    have hkpred := List.find?_some hfind
    simp only [Bool.and_eq_true, beq_iff_eq] at hkpred
    have hkeq : k = row := huniq k hkmem row hrow (by rw [hkpred.1, hk])
    subst hkeq
    rw [redeem_succ users uid hfind]
    refine ⟨rfl, by simp, ?_⟩
    intro r' hr' hkey'
    obtain ⟨r, _, rfl⟩ := List.mem_map.mp hr'
    by_cases h : (r.key == token) = true
    · rw [if_pos h]
    · rw [if_neg h] at hkey' ⊢
      exact absurd (by simp [hkey']) h
  · intro hrow hk hn us
    exact redeemAll_one hrow hk hn

/-- Witness for C7: one unredeemed key "T" and three attempts by users 1, 2, 3
serialised in that order — exactly one success. -/
theorem C7_redeem_single_use_witness :
    ((redeem [⟨"T", 30, none⟩] (fun _ => none) "T" 1).1.isSome = true ↔
      ∃ r ∈ [(⟨"T", 30, none⟩ : KeyRow)], r.key = "T" ∧ r.redeemed_by = none) ∧
    (redeem [⟨"T", 30, none⟩] (fun _ => none) "T" 1).1 = some 30 ∧
    (redeem [⟨"T", 30, none⟩] (fun _ => none) "T" 1).2.2 1 = some 30 ∧
    (redeemAll "T" [1, 2, 3] [⟨"T", 30, none⟩] (fun _ => none)).countP
      (fun o => o.isSome) = 1 := by
  have h := C7_redeem_single_use [⟨"T", 30, none⟩] (fun _ => none) "T" 1 ⟨"T", 30, none⟩
  refine ⟨h.1, ?_, ?_, h.2.2.2 (by decide) (by decide) (by decide) [2, 3]⟩
  · exact (h.2.2.1 (by decide) (by decide) (by decide) (by decide)).1
  · exact (h.2.2.1 (by decide) (by decide) (by decide) (by decide)).2.1

/-! ### Export ordering -/

theorem sorted_perm_eq : ∀ (l₁ l₂ : List SearchRow), l₁.Perm l₂ →
    l₁.Pairwise rowLe → l₂.Pairwise rowLe →
    (∀ a ∈ l₁, ∀ b ∈ l₁, a.found_at = b.found_at → a = b) →
    l₁ = l₂ := by
  intro l₁
  induction l₁ with
  | nil => intro l₂ hp _ _ _; exact List.Perm.nil_eq hp
  | cons a t₁ ih =>
    intro l₂ hp h₁ h₂ hinj
    cases l₂ with
    | nil =>
      have := hp.length_eq
      simp at this
    | cons b t₂ =>
      have ha2 : a ∈ b :: t₂ := hp.mem_iff.mp (List.mem_cons_self a t₁)
      have hb1 : b ∈ a :: t₁ := hp.mem_iff.mpr (List.mem_cons_self b t₂)
      have hale : ∀ x ∈ t₁, rowLe a x := (List.pairwise_cons.mp h₁).1
      have hble : ∀ x ∈ t₂, rowLe b x := (List.pairwise_cons.mp h₂).1
      have hab : a.found_at = b.found_at := by
        rcases List.mem_cons.mp ha2 with h | h
        · rw [h]
        · rcases List.mem_cons.mp hb1 with h' | h'
          · rw [h']
          · exact le_antisymm (hale b h') (hble a h)
      have heq : a = b := hinj a (List.mem_cons_self a t₁) b hb1 hab
      subst heq
      have hpt : t₁.Perm t₂ := hp.cons_inv
      rw [ih t₂ hpt (List.pairwise_cons.mp h₁).2 (List.pairwise_cons.mp h₂).2
        (fun x hx y hy hxy =>
          hinj x (List.mem_cons_of_mem _ hx) y (List.mem_cons_of_mem _ hy) hxy)]

/-- Counterexample to C8 as stated: the export query orders only by
`found_at` with no tie-break, so with two rows sharing one timestamp both
["b", "a"] and ["a", "b"] are outcomes the query may return — the result is
not deterministic and ties are not broken by line content (["b", "a"] is
permitted although "a" < "b"). -/
theorem C8_counterexample :
    exportResultOK 200 [⟨1, "k", "b", 0⟩, ⟨1, "k", "a", 0⟩] 1 "k" ["b", "a"] ∧
    exportResultOK 200 [⟨1, "k", "b", 0⟩, ⟨1, "k", "a", 0⟩] 1 "k" ["a", "b"] ∧
    (["b", "a"] : List String) ≠ ["a", "b"] := by
  refine ⟨⟨[⟨1, "k", "b", 0⟩, ⟨1, "k", "a", 0⟩], by decide, by decide, by decide⟩,
    ⟨[⟨1, "k", "a", 0⟩, ⟨1, "k", "b", 0⟩], by decide, by decide, by decide⟩, by simp⟩

/-- C8 amended: the export returns the user's and keyword's delivered lines in
some order non-decreasing in the insertion timestamp `found_at`, truncated to
the limit; ties carry no line-content tie-break, so the sequence is
deterministic (repeated requests agree) exactly under the proviso that the
relevant rows have pairwise-distinct timestamps. -/
theorem C8_export_order_amended (maxLines : Nat) (searches : List SearchRow)
    (uid : Nat) (kw : String) (out₁ out₂ : List String)
    (hinj : ∀ a ∈ exportRows searches uid kw, ∀ b ∈ exportRows searches uid kw,
      a.found_at = b.found_at → a = b)
    (h₁ : exportResultOK maxLines searches uid kw out₁)
    (h₂ : exportResultOK maxLines searches uid kw out₂) :
    out₁ = out₂ := by
  obtain ⟨p₁, hp₁, hs₁, ho₁⟩ := h₁
  obtain ⟨p₂, hp₂, hs₂, ho₂⟩ := h₂
  have hinj₁ : ∀ a ∈ p₁, ∀ b ∈ p₁, a.found_at = b.found_at → a = b := by
    intro a ha b hb
    exact hinj a (hp₁.mem_iff.mp ha) b (hp₁.mem_iff.mp hb)
  have hpp : p₁ = p₂ := sorted_perm_eq p₁ p₂ (hp₁.trans hp₂.symm) hs₁ hs₂ hinj₁
  rw [ho₁, ho₂, hpp]

/-- Witness for the amended C8: two rows with distinct timestamps admit only
one query outcome. -/
theorem C8_export_order_amended_witness :
    (["a", "b"] : List String) = ["a", "b"] :=
  C8_export_order_amended 200 [⟨1, "k", "a", 0⟩, ⟨1, "k", "b", 1⟩] 1 "k"
    ["a", "b"] ["a", "b"] (by decide)
    ⟨[⟨1, "k", "a", 0⟩, ⟨1, "k", "b", 1⟩], by decide, by decide, by decide⟩
    ⟨[⟨1, "k", "a", 0⟩, ⟨1, "k", "b", 1⟩], by decide, by decide, by decide⟩

end LogsBot
